import Mathlib

/-!
# Verification of the lazycap process-orchestration and plugin core

This file gives a shallow embedding, in Lean 4, of the core data model and
operations of the lazycap terminal dashboard (a Go program), and proves the
spec-level properties about it:

* the process record and its capped log buffer (internal/ui/styles.go),
* the message-driven UI state transitions that mutate process status and
  end time (internal/ui/model.go),
* the non-blocking bounded queues used by the process engine and the plugin
  log bridge (internal/ui/model.go, internal/plugin AppContext),
* the capability bridge AppContext and its callback wiring,
* the MCP RPC server request dispatch (internal/plugins/mcp/mcp.go), and
* the Start/Stop lifecycle state machines of the MCP and Firebase plugins.

Go machine integers are modelled as Lean Int/Nat (no arithmetic in scope
overflows), Go time.Time values as Nat ticks of a model clock (unset zero
times become Option.none), Go error results as Option String (none = nil),
and Go interface values decoded from JSON as an explicit Json inductive.
Calls into Go standard-library or external packages (JSON codec, OS process
spawning, network listeners) are modelled at their interface boundary.
-/

namespace LazyCap

/-! ## Process record and log buffer (internal/ui/styles.go)

`ProcessStatus` and `Process` embed the types of the same name; `AddLog`
appends a line, keeping at most the last 5000. -/

inductive ProcessStatus where
  | running
  | success
  | failed
  | cancelled
deriving DecidableEq, Repr

/-- A status is terminal when it is not `running` (Succeeded / Failed /
Cancelled). -/
def ProcessStatus.isTerminal : ProcessStatus → Bool
  | .running => false
  | .success => true
  | .failed => true
  | .cancelled => true

/-- The 5000-line cap of `Process.AddLog`. -/
def maxLogLines : Nat := 5000

/-- Embeds `Process.AddLog` (styles.go): append the line, and when the
buffer exceeds 5000 entries keep only the last 5000
(`p.Logs = p.Logs[len(p.Logs)-5000:]`). -/
def addLogLines (logs : List String) (line : String) : List String :=
  let l := logs ++ [line]
  if l.length > maxLogLines then l.drop (l.length - maxLogLines) else l

/-- The last `n` elements of a list (the suffix kept by the log cap). -/
def lastN (n : Nat) (l : List α) : List α := l.drop (l.length - n)


/-! ## ANSI stripping (model.go ansiRegex)

`ansiRegex` is `\x1b\[[0-9;?]*[a-zA-Z]|\x1b\][^\x07\x1b]*(?:\x07|\x1b\\)|\x1b[PX^_].*?\x1b\\|\x1b.`
applied with `ReplaceAllString(line, "")` (leftmost-first alternation, as the
Go regexp package implements).  The four alternatives are CSI sequences, OSC
sequences, DCS/PM/APC sequences, and a bare ESC plus one character.  Scanner
lines never contain a newline, so the difference between `.` and any-char is
immaterial. -/

/-- Consume `[0-9;?]*[a-zA-Z]` (the body of a CSI sequence); `none` when the
sequence has no valid terminator. -/
def consumeCsiBody : List Char → Option (List Char)
  | [] => none
  | c :: cs =>
      if c.isDigit || c = ';' || c = '?' then consumeCsiBody cs
      else if c.isAlpha then some cs
      else none

/-- Consume `[^\x07\x1b]*(?:\x07|\x1b\\)` (the body of an OSC sequence). -/
def consumeOscBody : List Char → Option (List Char)
  | [] => none
  | c :: cs =>
      if c = '\x07' then some cs
      else if c = '\x1b' then
        match cs with
        | '\\' :: cs2 => some cs2
        | _ => none
      else consumeOscBody cs

/-- Consume `.*?\x1b\\` (the body of a DCS/PM/APC sequence, up to the first
string terminator). -/
def consumeDcsBody : List Char → Option (List Char)
  | [] => none
  | c :: cs =>
      if c = '\x1b' then
        match cs with
        | '\\' :: cs2 => some cs2
        | _ => consumeDcsBody cs
      else consumeDcsBody cs

theorem consumeCsiBody_length :
    ∀ cs cs2, consumeCsiBody cs = some cs2 → cs2.length < cs.length := by
  intro cs
  induction cs with
  | nil => intro cs2 h; simp [consumeCsiBody] at h
  | cons c cs ih =>
      intro cs2 h
      unfold consumeCsiBody at h
      split at h
      · exact Nat.lt_trans (ih cs2 h) (Nat.lt_succ_self _)
      · split at h
        · injection h with h
          subst h
          exact Nat.lt_succ_self _
        · exact absurd h (by simp)

theorem consumeOscBody_length :
    ∀ cs cs2, consumeOscBody cs = some cs2 → cs2.length < cs.length := by
  intro cs
  induction cs with
  | nil => intro cs2 h; simp [consumeOscBody] at h
  | cons c cs ih =>
      intro cs2 h
      unfold consumeOscBody at h
      split at h
      · injection h with h
        subst h
        exact Nat.lt_succ_self _
      · split at h
        · split at h
          · injection h with h
            subst h
            simp only [List.length_cons]
            omega
          · exact absurd h (by simp)
        · exact Nat.lt_trans (ih cs2 h) (Nat.lt_succ_self _)

theorem consumeDcsBody_length :
    ∀ cs cs2, consumeDcsBody cs = some cs2 → cs2.length < cs.length := by
  intro cs
  induction cs with
  | nil => intro cs2 h; simp [consumeDcsBody] at h
  | cons c cs ih =>
      intro cs2 h
      unfold consumeDcsBody at h
      split at h
      · split at h
        · injection h with h
          subst h
          simp only [List.length_cons]
          omega
        · exact Nat.lt_trans (ih cs2 h) (Nat.lt_succ_self _)
      · exact Nat.lt_trans (ih cs2 h) (Nat.lt_succ_self _)

/-- One pass of `ansiRegex.ReplaceAllString(line, "")` over the characters of
a line: at each ESC the four regex alternatives are tried leftmost-first; a
trailing lone ESC matches no alternative and is kept. -/
def stripAnsiChars : List Char → List Char
  | [] => []
  | c :: cs =>
      if c = '\x1b' then
        match cs with
        | [] => ['\x1b']
        | c2 :: cs1 =>
            if c2 = '[' then
              match h : consumeCsiBody cs1 with
              | some rest => stripAnsiChars rest
              | none => stripAnsiChars cs1
            else if c2 = ']' then
              match h : consumeOscBody cs1 with
              | some rest => stripAnsiChars rest
              | none => stripAnsiChars cs1
            else if c2 = 'P' ∨ c2 = 'X' ∨ c2 = '^' ∨ c2 = '_' then
              match h : consumeDcsBody cs1 with
              | some rest => stripAnsiChars rest
              | none => stripAnsiChars cs1
            else stripAnsiChars cs1
      else c :: stripAnsiChars cs
termination_by l => l.length
decreasing_by
  · simp only [List.length_cons]
    have := consumeCsiBody_length _ _ h
    omega
  · simp only [List.length_cons]
    omega
  · simp only [List.length_cons]
    have := consumeOscBody_length _ _ h
    omega
  · simp only [List.length_cons]
    omega
  · simp only [List.length_cons]
    have := consumeDcsBody_length _ _ h
    omega
  · simp only [List.length_cons]
    omega
  · simp only [List.length_cons]
    omega
  · simp only [List.length_cons]
    omega

/-- Embeds `strings.TrimSpace(ansiRegex.ReplaceAllString(line, ""))` from the
`processOutputMsg` handler.  `String.trim` stands in for the Go standard
library `strings.TrimSpace` at the library boundary. -/
def cleanOutputLine (line : String) : String :=
  (String.mk (stripAnsiChars line.data)).trim

/-! ## Process records and the UI transition system (internal/ui/model.go)

The interactive host is a single-threaded message loop: every mutation of
process state happens inside `Model.Update` in response to one message at a
time.  We embed the process-related state of `Model` and the message cases
that touch it as an explicit transition system.  Wall-clock readings
(`time.Now()`) are modelled by a Nat clock incremented once per step; the Go
zero `time.Time` (an unset end time) is `Option.none`.  The `Cmd`/`Process`
OS handle is modelled by the Bool `hasCmd` (`p.Cmd != nil && p.Cmd.Process != nil`). -/

structure Process where
  id : String
  name : String
  command : String
  status : ProcessStatus
  startTime : Nat
  endTime : Option Nat
  logs : List String
  hasCmd : Bool
deriving DecidableEq, Repr

/-- `Process.AddLog` at the record level. -/
def Process.addLog (p : Process) (line : String) : Process :=
  { p with logs := addLogLines p.logs line }

/-- The process-related state of `ui.Model`: the process list, the
monotonically increasing id counter (starting at 1), and the model clock. -/
structure UIModel where
  processes : List Process
  nextProcessID : Nat
  clock : Nat
deriving DecidableEq, Repr

def initModel : UIModel := { processes := [], nextProcessID := 1, clock := 0 }

/-- Replace the first element satisfying `pred` by its image under `f`
(the `for ... { if cond { ...; break } }` pattern of `Model.Update`). -/
def updateFirst (pred : α → Bool) (f : α → α) : List α → List α
  | [] => []
  | x :: xs => if pred x then f x :: xs else x :: updateFirst pred f xs

/-- The messages / key events of `Model.Update` that mutate process state.
`killSelected idx` is the kill key with `m.selectedProcess = idx`;
`processFinished pid err` is `processFinishedMsg` with `err` the error text
(`none` for a clean exit). -/
inductive UIEvent where
  | createProcess (name command : String)
  | addLog (line : String)
  | processStarted (pid : String)
  | processOutput (pid line : String)
  | processFinished (pid : String) (errMsg : Option String)
  | killSelected (idx : Nat)
deriving DecidableEq, Repr

/-- The timestamp text of a model instant; the Go code formats the wall
clock as `"15:04:05"`, whose exact text no claim depends on. -/
def timestamp (clock : Nat) : String := toString clock

/-- `Model.createProcess`: a fresh record with id `p<n>`, status Running,
no end time, and the command echoed as the first log line. -/
def applyCreateProcess (m : UIModel) (name command : String) : UIModel :=
  let p : Process := {
    id := "p" ++ toString m.nextProcessID
    name := name
    command := command
    status := .running
    startTime := m.clock
    endTime := none
    logs := ["[" ++ timestamp m.clock ++ "] $ " ++ command]
    hasCmd := false }
  { m with processes := m.processes ++ [p], nextProcessID := m.nextProcessID + 1 }

/-- `Model.addLog`: a timestamped system line.  On an empty process list it
creates the synthetic "system" process — already in Succeeded status and with
no end time; otherwise it appends to the log of process 0. -/
def applyAddLog (m : UIModel) (line : String) : UIModel :=
  let entry := "[" ++ timestamp m.clock ++ "] " ++ line
  match m.processes with
  | [] =>
      { m with processes := [{
          id := "system"
          name := "System"
          command := ""
          status := .success
          startTime := m.clock
          endTime := none
          logs := [entry]
          hasCmd := false }] }
  | p :: rest => { m with processes := p.addLog entry :: rest }

/-- `processStartedMsg`: attach the spawned command handle to the matching
process. -/
def applyProcessStarted (m : UIModel) (pid : String) : UIModel :=
  { m with processes :=
      updateFirst (fun p => p.id == pid) (fun p => { p with hasCmd := true }) m.processes }

/-- `processOutputMsg`: for a non-empty line, strip ANSI sequences and trim;
a non-empty cleaned line is appended to the matching process log. -/
def applyProcessOutput (m : UIModel) (pid line : String) : UIModel :=
  if line == "" then m
  else
    let appendClean : Process → Process := fun p =>
      let clean := cleanOutputLine line
      if clean == "" then p else p.addLog clean
    { m with processes := updateFirst (fun p => p.id == pid) appendClean m.processes }

/-- `processFinishedMsg`: the first matching process still in Running status
becomes Failed (with an error log line) or Succeeded (with a done marker),
and its end time is set. -/
def applyProcessFinished (m : UIModel) (pid : String) (errMsg : Option String) : UIModel :=
  let finish : Process → Process := fun p =>
    let p1 := match errMsg with
      | some e => { p.addLog ("Error: " ++ e) with status := ProcessStatus.failed }
      | none => { p.addLog "✓ Done" with status := ProcessStatus.success }
    { p1 with endTime := some m.clock }
  let pred : Process → Bool := fun p => p.id == pid && p.status == ProcessStatus.running
  { m with processes := updateFirst pred finish m.processes }

/-- The kill key: the selected process, when Running with a live command
handle, is killed — Cancelled status, end time now, and a log marker. -/
def applyKillSelected (m : UIModel) (idx : Nat) : UIModel :=
  match m.processes.get? idx with
  | none => m
  | some p =>
      if p.status == ProcessStatus.running && p.hasCmd then
        let killed :=
          ({ p with status := ProcessStatus.cancelled, endTime := some m.clock }).addLog
            "Killed by user"
        { m with processes := m.processes.set idx killed }
      else m

def applyEvent (m : UIModel) (e : UIEvent) : UIModel :=
  let m1 := match e with
    | .createProcess name command => applyCreateProcess m name command
    | .addLog line => applyAddLog m line
    | .processStarted pid => applyProcessStarted m pid
    | .processOutput pid line => applyProcessOutput m pid line
    | .processFinished pid errMsg => applyProcessFinished m pid errMsg
    | .killSelected idx => applyKillSelected m idx
  { m1 with clock := m1.clock + 1 }

/-- A run of the interactive loop from the initial model. -/
def runEvents (evs : List UIEvent) : UIModel := evs.foldl applyEvent initModel

/-- The status/end-time relationship that actually holds for every tracked
process: ordinary processes satisfy "end time set iff status terminal"; the
synthetic `system` process created by `Model.addLog` is permanently Succeeded
with no end time. -/
def Process.lifecycleOk (p : Process) : Prop :=
  if p.id = "system" then p.status = ProcessStatus.success ∧ p.endTime = none
  else (p.endTime.isSome = true ↔ p.status.isTerminal = true)

def UIModel.lifecycleInv (m : UIModel) : Prop :=
  ∀ p ∈ m.processes, p.lifecycleOk

/-! ## Bounded non-blocking queues

Both the per-process output channel of `runCmdWithPipes`
(`ch := make(chan string, 100)` written to by
`select { case ch <- scanner.Text(): default: }`) and the plugin log channel
of the bridge (`logChan := make(chan PluginLogEntry, 100)` written to by
`select { case c.logChan <- entry: default: }`) enqueue without blocking:
the send is a total function of the buffer — when the buffer is full the
item is dropped and the buffer is unchanged. -/

/-- Capacity of the per-process output channel and of the plugin log
channel. -/
def processQueueCap : Nat := 100

/-- The non-blocking `select`/`default` send on a bounded channel with the
given capacity: enqueue when there is room, drop otherwise. -/
def trySend (capacity : Nat) (buf : List α) (x : α) : List α :=
  if buf.length < capacity then buf ++ [x] else buf

/-- The reader goroutines of `runCmdWithPipes` pushing one scanned line. -/
def enqueueOutputLine (ch : List String) (line : String) : List String :=
  trySend processQueueCap ch line

/-! ## JSON values and Go interface values

`encoding/json` decoding of `interface{}` values produces nil, bool,
float64, string, `[]interface{}` or `map[string]interface{}`; the codec
itself is standard library, modelled at this boundary.  JSON numbers are
modelled as rationals (float64 rounding is irrelevant at the scale of the
values in scope). -/

inductive Json where
  | null
  | bool (b : Bool)
  | num (q : Rat)
  | str (s : String)
  | arr (elems : List Json)
  | obj (fields : List (String × Json))
deriving Repr

/-- A Go `interface{}` value as seen by the `AppContext.SetSetting` type
switch: the JSON-decoded kinds plus Go `int` (used by in-process callers). -/
inductive GoValue where
  | nil
  | bool (b : Bool)
  | int (n : Int)
  | float (q : Rat)
  | str (s : String)
  | arr (elems : List GoValue)
  | obj (fields : List (String × GoValue))
deriving Repr

mutual

/-- The `interface{}` view of a decoded JSON value: JSON numbers decode to
float64, never to Go int. -/
def jsonToGo : Json → GoValue
  | .null => .nil
  | .bool b => .bool b
  | .num q => .float q
  | .str s => .str s
  | .arr l => .arr (jsonToGoList l)
  | .obj l => .obj (jsonToGoFields l)

def jsonToGoList : List Json → List GoValue
  | [] => []
  | x :: xs => jsonToGo x :: jsonToGoList xs

def jsonToGoFields : List (String × Json) → List (String × GoValue)
  | [] => []
  | (k, v) :: xs => (k, jsonToGo v) :: jsonToGoFields xs

end

/-- Go `int(f)` conversion of a float64: truncation toward zero. -/
def truncToInt (q : Rat) : Int :=
  if 0 ≤ q.num then ((q.num.toNat / q.den : Nat) : Int)
  else -(((-q.num).toNat / q.den : Nat) : Int)

/-! ## The settings store and external collaborator data

Modelled from the spec: the settings persistence store (`internal/settings`,
not among the sources) exposes `Settings.Get/Set(key)` typed by
bool/int/string (spec §6); we model it as three typed key-value tables with
last-write-wins updates.  The project descriptor (`internal/cap`) and the
debug-action catalog (`internal/debug`) are likewise collaborators specified
only at their interface boundary (spec §6). -/

/-- Modelled from the spec: the typed settings store of the missing
`internal/settings` package ("Settings.Get/Set(key) typed by
bool/int/string"). -/
structure SettingsStore where
  bools : List (String × Bool)
  ints : List (String × Int)
  strs : List (String × String)
deriving DecidableEq, Repr

def SettingsStore.setBool (s : SettingsStore) (key : String) (v : Bool) : SettingsStore :=
  { s with bools := (key, v) :: s.bools.filter (fun kv => kv.1 ≠ key) }

def SettingsStore.setInt (s : SettingsStore) (key : String) (v : Int) : SettingsStore :=
  { s with ints := (key, v) :: s.ints.filter (fun kv => kv.1 ≠ key) }

def SettingsStore.setString (s : SettingsStore) (key : String) (v : String) : SettingsStore :=
  { s with strs := (key, v) :: s.strs.filter (fun kv => kv.1 ≠ key) }

def SettingsStore.getBool (s : SettingsStore) (key : String) : Bool :=
  ((s.bools.find? (fun kv => kv.1 == key)).map Prod.snd).getD false

def SettingsStore.getInt (s : SettingsStore) (key : String) : Int :=
  ((s.ints.find? (fun kv => kv.1 == key)).map Prod.snd).getD 0

def SettingsStore.getString (s : SettingsStore) (key : String) : String :=
  ((s.strs.find? (fun kv => kv.1 == key)).map Prod.snd).getD ""

/-- `cap.Project` (modelled from the spec: `GetProject() → {name, appId,
webDir, hasIOS, hasAndroid, rootDir}`). -/
structure Project where
  name : String
  appId : String
  webDir : String
  hasIOS : Bool
  hasAndroid : Bool
  rootDir : String
deriving DecidableEq, Repr

/-- `device.Device` (sources, internal/device). -/
structure Device where
  id : String
  name : String
  platform : String
  online : Bool
  isEmulator : Bool
  isWeb : Bool
  apiLevel : String
  osVersion : String
deriving DecidableEq, Repr

/-- `plugin.ProcessInfo` as populated by the GetProcesses callback wired in
`NewModelWithPlugins`. -/
structure ProcessInfo where
  id : String
  name : String
  command : String
  status : String
  startTime : Int
deriving DecidableEq, Repr

/-- `debug.Action` (modelled from the spec: `GetDebugActions()` descriptor
with the fields read by the MCP tool). -/
structure DebugAction where
  id : String
  name : String
  description : String
  category : String
  dangerous : Bool
deriving DecidableEq, Repr

/-- `debug.Result` (modelled from the spec: `RunAction(id) → {success,
message, details}`). -/
structure DebugResult where
  success : Bool
  message : String
  details : String
deriving DecidableEq, Repr

/-- `plugin.PluginLogEntry`. -/
structure PluginLogEntry where
  pluginID : String
  message : String
  time : Nat
deriving DecidableEq, Repr

/-! ## The capability bridge (plugin.AppContext)

Host callbacks are wired once by `SetCallbacks` after UI initialization; a
still-unset callback is `none`.  Error returns are `Option String`
(`none` = nil error).  The callbacks themselves are model parameters: pure
functions supplied by the host. -/

structure AppContext where
  project : Option Project
  settings : Option SettingsStore
  hasManager : Bool
  onGetDevices : Option (Unit → List Device)
  onGetSelectedDevice : Option (Unit → Option Device)
  onRefreshDevices : Option (Unit → Option String)
  onRunOnDevice : Option (String → Bool → Option String)
  onRunWeb : Option (Unit → Option String)
  onSync : Option (String → Option String)
  onBuild : Option (Unit → Option String)
  onOpenIDE : Option (String → Option String)
  onKillProcess : Option (String → Option String)
  onGetProcesses : Option (Unit → List ProcessInfo)
  onGetProcessLogs : Option (String → List String)
  debugActions : List DebugAction
  runDebugActionFn : String → DebugResult
  logChan : List PluginLogEntry
  clock : Nat

/-- `NewAppContext`: a freshly constructed bridge — no project, no settings,
and every host callback still nil.  (`debugActions`/`runDebugActionFn` model
the always-available `internal/debug` collaborator with an empty catalog.) -/
def newAppContext : AppContext :=
  { project := none
    settings := none
    hasManager := true
    onGetDevices := none
    onGetSelectedDevice := none
    onRefreshDevices := none
    onRunOnDevice := none
    onRunWeb := none
    onSync := none
    onBuild := none
    onOpenIDE := none
    onKillProcess := none
    onGetProcesses := none
    onGetProcessLogs := none
    debugActions := []
    runDebugActionFn := fun _ => { success := false, message := "", details := "" }
    logChan := []
    clock := 0 }

def AppContext.getProject (c : AppContext) : Option Project := c.project

def AppContext.getDevices (c : AppContext) : List Device :=
  match c.onGetDevices with
  | some fn => fn ()
  | none => []

def AppContext.getSelectedDevice (c : AppContext) : Option Device :=
  match c.onGetSelectedDevice with
  | some fn => fn ()
  | none => none

def AppContext.refreshDevices (c : AppContext) : Option String :=
  match c.onRefreshDevices with
  | some fn => fn ()
  | none => some "refresh not available"

def AppContext.runOnDevice (c : AppContext) (deviceID : String) (liveReload : Bool) :
    Option String :=
  match c.onRunOnDevice with
  | some fn => fn deviceID liveReload
  | none => some "run not available"

def AppContext.runWeb (c : AppContext) : Option String :=
  match c.onRunWeb with
  | some fn => fn ()
  | none => some "run web not available"

def AppContext.sync (c : AppContext) (platform : String) : Option String :=
  match c.onSync with
  | some fn => fn platform
  | none => some "sync not available"

def AppContext.build (c : AppContext) : Option String :=
  match c.onBuild with
  | some fn => fn ()
  | none => some "build not available"

def AppContext.openIDE (c : AppContext) (platform : String) : Option String :=
  match c.onOpenIDE with
  | some fn => fn platform
  | none => some "open IDE not available"

def AppContext.killProcess (c : AppContext) (processID : String) : Option String :=
  match c.onKillProcess with
  | some fn => fn processID
  | none => some "kill not available"

def AppContext.getProcesses (c : AppContext) : List ProcessInfo :=
  match c.onGetProcesses with
  | some fn => fn ()
  | none => []

def AppContext.getProcessLogs (c : AppContext) (processID : String) : List String :=
  match c.onGetProcessLogs with
  | some fn => fn processID
  | none => []

/-- `GetAllLogs`: one entry per known process, keyed by process id. -/
def AppContext.getAllLogs (c : AppContext) : List (String × List String) :=
  (c.getProcesses).map fun p => (p.id, c.getProcessLogs p.id)

def AppContext.getSettings (c : AppContext) : Option SettingsStore := c.settings

/-- `SetSetting`: the dynamic type switch — bool, string and int are stored
as-is, a float64 is truncated toward zero and stored as an int, anything
else is rejected with an error and the store is untouched. -/
def AppContext.setSetting (c : AppContext) (key : String) (value : GoValue) :
    AppContext × Option String :=
  match c.settings with
  | none => (c, some "settings not available")
  | some s =>
      match value with
      | .bool b => ({ c with settings := some (s.setBool key b) }, none)
      | .str v => ({ c with settings := some (s.setString key v) }, none)
      | .int n => ({ c with settings := some (s.setInt key n) }, none)
      | .float q => ({ c with settings := some (s.setInt key (truncToInt q)) }, none)
      | _ => (c, some "unsupported setting type")

def AppContext.saveSettings (c : AppContext) : Option String :=
  match c.settings with
  | none => some "settings not available"
  | some _ => none

def AppContext.getDebugActions (c : AppContext) : List DebugAction := c.debugActions

def AppContext.runDebugAction (c : AppContext) (actionID : String) : DebugResult :=
  c.runDebugActionFn actionID

/-- `Log`: build the entry and try a non-blocking send onto the bounded log
channel; a full channel drops the entry so the caller never blocks. -/
def AppContext.log (c : AppContext) (pluginID message : String) : AppContext :=
  let entry : PluginLogEntry := { pluginID := pluginID, message := message, time := c.clock }
  { c with logChan := trySend processQueueCap c.logChan entry }

/-- The operations of the bridge backed by an optional host callback or
component (spec §4.4 error policy). -/
inductive BridgeOp where
  | getProject
  | getDevices
  | getSelectedDevice
  | refreshDevices
  | runOnDevice
  | runWeb
  | syncOp
  | buildOp
  | openIDE
  | killProcess
  | getProcesses
  | getProcessLogs
  | getAllLogs
  | getSettings
  | setSetting
  | saveSettings
deriving DecidableEq, Repr

/-- The error component (if any) produced by invoking a bridge operation on
the freshly constructed, un-wired bridge, with representative arguments.
Operations whose Go signature carries no error value (the pure getters)
cannot return one: their entry is `none`, and the getter itself returns its
zero value. -/
def opError : BridgeOp → Option String
  | .getProject => none
  | .getDevices => none
  | .getSelectedDevice => none
  | .refreshDevices => newAppContext.refreshDevices
  | .runOnDevice => newAppContext.runOnDevice "dev1" false
  | .runWeb => newAppContext.runWeb
  | .syncOp => newAppContext.sync "ios"
  | .buildOp => newAppContext.build
  | .openIDE => newAppContext.openIDE "ios"
  | .killProcess => newAppContext.killProcess "p1"
  | .getProcesses => none
  | .getProcessLogs => none
  | .getAllLogs => none
  | .getSettings => none
  | .setSetting => (newAppContext.setSetting "k" (GoValue.bool true)).2
  | .saveSettings => newAppContext.saveSettings

/-! ## JSON rendering (`toJSON` / encoding/json.Marshal at the boundary)

The MCP tools serialize Go values into the text of their responses with
`json.MarshalIndent`.  We render compactly; no claim depends on the
serialized text, only on which value is serialized. -/

def escapeJsonChar (c : Char) : String :=
  if c = '"' then "\\\"" else if c = '\\' then "\\\\" else String.singleton c

def escapeJsonString (s : String) : String :=
  String.join (s.data.map escapeJsonChar)

mutual

def renderJson : Json → String
  | .null => "null"
  | .bool b => if b then "true" else "false"
  | .num q => if q.den = 1 then toString q.num else toString q.num ++ "/" ++ toString q.den
  | .str s => "\"" ++ escapeJsonString s ++ "\""
  | .arr l => "[" ++ renderJsonList l ++ "]"
  | .obj l => "\x7b" ++ renderJsonFields l ++ "\x7d"

def renderJsonList : List Json → String
  | [] => ""
  | [x] => renderJson x
  | x :: xs => renderJson x ++ "," ++ renderJsonList xs

def renderJsonFields : List (String × Json) → String
  | [] => ""
  | [(k, v)] => "\"" ++ escapeJsonString k ++ "\":" ++ renderJson v
  | (k, v) :: xs => "\"" ++ escapeJsonString k ++ "\":" ++ renderJson v ++ "," ++ renderJsonFields xs

end

/-! ## Plugin lifecycle state machines

`MCPPlugin` (internal/plugins/mcp) and `FirebasePlugin`
(internal/plugins/firebase) guard `running`, their stop channel and their
resource handle (TCP listener / emulator subprocess) with a per-plugin lock;
`Start` and `Stop` are the lock-protected critical sections, embedded here
as functions of the plugin state.  The fallible external effects
(`net.Listen`, `exec.Cmd.Start`) are boundary parameters (`listenOk`,
`startOk`).  `ctxLogs` records the messages passed to `ctx.Log`. -/

structure MCPServerState where
  running : Bool
  mode : String
  port : Nat
  stopChClosed : Bool
  hasListener : Bool
  ctxLogs : List String
deriving DecidableEq, Repr

/-- `mcp.New()`: tcp mode, port 9315, fresh (open) stop channel. -/
def mcpInitialState : MCPServerState :=
  { running := false
    mode := "tcp"
    port := 9315
    stopChClosed := false
    hasListener := false
    ctxLogs := [] }

/-- `MCPPlugin.Start`: a running server returns nil at once; otherwise mark
running, make a fresh stop channel, then launch the stdio loop or bind the
TCP listener (rolling back `running` when the bind fails). -/
def mcpStart (listenOk : Bool) (s : MCPServerState) : MCPServerState × Option String :=
  if s.running then (s, none)
  else
    let s1 := { s with running := true, stopChClosed := false }
    if s1.mode == "stdio" then
      ({ s1 with ctxLogs := s1.ctxLogs ++ ["MCP server started (mode: stdio)"] }, none)
    else if listenOk then
      ({ s1 with
          hasListener := true
          ctxLogs := s1.ctxLogs ++ ["MCP server started (mode: tcp)"] }, none)
    else ({ s1 with running := false }, some "failed to start MCP server")

/-- `MCPPlugin.Stop`: a stopped server returns nil at once and touches
nothing; otherwise clear `running`, close the stop channel once, close and
drop the listener, and log. -/
def mcpStop (s : MCPServerState) : MCPServerState × Option String :=
  if s.running then
    ({ s with
        running := false
        stopChClosed := true
        hasListener := false
        ctxLogs := s.ctxLogs ++ ["MCP server stopped"] }, none)
  else (s, none)

structure FirebaseState where
  running : Bool
  configPath : String
  stopChClosed : Bool
  hasCmd : Bool
  importPath : String
  exportOnExit : Bool
  ctxLogs : List String
deriving DecidableEq, Repr

/-- `firebase.New()` before `Init` detects a config: no config path, fresh
stop channel, exportOnExit defaulted on. -/
def firebaseInitialState : FirebaseState :=
  { running := false
    configPath := ""
    stopChClosed := false
    hasCmd := false
    importPath := ""
    exportOnExit := true
    ctxLogs := [] }

/-- `FirebasePlugin.Start`: running → nil at once; no firebase.json →
error; otherwise mark running with a fresh stop channel and spawn the
emulator subprocess (rolling back `running` when the spawn fails). -/
def firebaseStart (startOk : Bool) (s : FirebaseState) : FirebaseState × Option String :=
  if s.running then (s, none)
  else if s.configPath == "" then (s, some "no firebase.json found in project")
  else
    let s1 := { s with running := true, stopChClosed := false }
    if startOk then
      ({ s1 with
          hasCmd := true
          ctxLogs := s1.ctxLogs ++ ["Firebase emulators started"] }, none)
    else ({ s1 with running := false }, some "failed to start firebase emulators")

/-- `FirebasePlugin.Stop`: stopped → nil at once and touches nothing;
otherwise clear `running`, close the stop channel once, signal the
subprocess (the asynchronous waiter later clears the handle — the handle
itself is not dropped here) and log. -/
def firebaseStop (s : FirebaseState) : FirebaseState × Option String :=
  if s.running then
    ({ s with
        running := false
        stopChClosed := true
        ctxLogs := s.ctxLogs ++ ["Firebase emulators stopped"] }, none)
  else (s, none)

/-! ## MCP protocol server (internal/plugins/mcp/mcp.go)

Each connection (TCP or stdio) reads one JSON request per line and answers
each line with one JSON response; `handleRequest` is the per-line dispatch.
`json.Unmarshal` of the request line is the standard-library boundary: the
input to `handleRequest` is its outcome, `none` when the line does not
unmarshal into `MCPRequest`.  The response `id` field has no `omitempty`
tag, so a response built without an ID carries JSON null. -/

structure MCPRequest where
  jsonrpc : String
  id : Json
  method : String
  params : Option Json

structure MCPError where
  code : Int
  message : String

structure MCPResponse where
  jsonrpc : String
  id : Json
  result : Option Json
  error : Option MCPError

/-- Duplicate JSON object keys: the last binding wins (as encoding/json
decodes objects). -/
def lookupField (fields : List (String × Json)) (key : String) : Option Json :=
  (fields.reverse.find? (fun kv => kv.1 == key)).map Prod.snd

/-- The decoded `tools/call` parameter struct
(`{ Name string; Arguments map[string]interface{} }`). -/
structure ToolCall where
  name : String
  arguments : List (String × Json)

/-- `json.Unmarshal(params, &call)` at the codec boundary: a nil
RawMessage or non-object JSON fails; JSON null leaves the zero value; a
field of the wrong JSON type fails; missing fields keep their zero value. -/
def decodeToolCall : Option Json → Option ToolCall
  | none => none
  | some Json.null => some { name := "", arguments := [] }
  | some (Json.obj fields) =>
      let nameRes : Option String :=
        match lookupField fields "name" with
        | none => some ""
        | some (Json.str s) => some s
        | some Json.null => some ""
        | some _ => none
      let argsRes : Option (List (String × Json)) :=
        match lookupField fields "arguments" with
        | none => some []
        | some (Json.obj o) => some o
        | some Json.null => some []
        | some _ => none
      match nameRes, argsRes with
      | some n, some a => some { name := n, arguments := a }
      | _, _ => none
  | some _ => none

/-- `args[key].(string)` with discarded ok flag: zero value on a missing
key or non-string value. -/
def argString (args : List (String × Json)) (key : String) : String :=
  match lookupField args key with
  | some (Json.str s) => s
  | _ => ""

/-- `args[key].(bool)` with discarded ok flag. -/
def argBool (args : List (String × Json)) (key : String) : Bool :=
  match lookupField args key with
  | some (Json.bool b) => b
  | _ => false

/-- The `{"content": [{"type": "text", "text": ...}]}` MCP result wrapper. -/
def textContent (text : String) : Json :=
  Json.obj [("content", Json.arr [Json.obj [("type", Json.str "text"), ("text", Json.str text)]])]

/-- `handleInitialize` (a static payload). -/
def handleInitialize : Json :=
  Json.obj [
    ("protocolVersion", Json.str "2024-11-05"),
    ("serverInfo", Json.obj [
      ("name", Json.str "lazycap"),
      ("version", Json.str "1.0.0"),
      ("description", Json.str "Capacitor/Ionic mobile app development tools - controls native builds, device deployment, emulators, and Firebase services")]),
    ("capabilities", Json.obj [("tools", Json.obj [])])]

/-- The names of the static tool catalog built by `handleToolsList`, in
order.  (The catalog entries also carry a description and a JSON input
schema — static string/schema literals that no claim refers to.) -/
def toolCatalog : List String :=
  ["list_devices", "run_on_device", "run_web", "sync", "build", "open_ide",
   "get_processes", "get_logs", "get_all_logs", "kill_process",
   "get_debug_actions", "run_debug_action", "get_settings", "set_setting",
   "get_project"]

/-- `handleToolsList`: the static catalog.  The Go method reads none of the
server state. -/
def handleToolsList : Json :=
  Json.obj [("tools", Json.arr (toolCatalog.map fun n => Json.obj [("name", Json.str n)]))]

def deviceJson (d : Device) : Json :=
  Json.obj [
    ("id", Json.str d.id),
    ("name", Json.str d.name),
    ("platform", Json.str d.platform),
    ("online", Json.bool d.online),
    ("isEmulator", Json.bool d.isEmulator),
    ("isWeb", Json.bool d.isWeb)]

def processInfoJson (p : ProcessInfo) : Json :=
  Json.obj [
    ("id", Json.str p.id),
    ("name", Json.str p.name),
    ("command", Json.str p.command),
    ("status", Json.str p.status),
    ("startTime", Json.num (p.startTime : Rat))]

def debugActionJson (a : DebugAction) : Json :=
  Json.obj [
    ("id", Json.str a.id),
    ("name", Json.str a.name),
    ("description", Json.str a.description),
    ("category", Json.str a.category),
    ("dangerous", Json.bool a.dangerous)]

def debugResultJson (r : DebugResult) : Json :=
  Json.obj [
    ("success", Json.bool r.success),
    ("message", Json.str r.message),
    ("details", Json.str r.details)]

def settingsStoreJson (s : SettingsStore) : Json :=
  Json.obj (s.bools.map (fun kv => (kv.1, Json.bool kv.2))
    ++ s.ints.map (fun kv => (kv.1, Json.num (kv.2 : Rat)))
    ++ s.strs.map (fun kv => (kv.1, Json.str kv.2)))

def projectJson (p : Project) : Json :=
  Json.obj [
    ("name", Json.str p.name),
    ("appId", Json.str p.appId),
    ("webDir", Json.str p.webDir),
    ("hasAndroid", Json.bool p.hasAndroid),
    ("hasIOS", Json.bool p.hasIOS),
    ("rootDir", Json.str p.rootDir)]

/-- Case-sensitive substring test built on character lists
(`strings.Contains`). -/
def charsStartWith : List Char → List Char → Bool
  | _, [] => true
  | [], _ :: _ => false
  | x :: xs, y :: ys => x == y && charsStartWith xs ys

def charsContain : List Char → List Char → Bool
  | [], sub => charsStartWith [] sub
  | x :: xs, sub => charsStartWith (x :: xs) sub || charsContain xs sub

def containsSub (s sub : String) : Bool := charsContain s.data sub.data

/-- `containsIgnoreCase` (mcp.go): lowercase both then substring test. -/
def containsIgnoreCase (s sub : String) : Bool :=
  containsSub s.toLower sub.toLower

/-- The error patterns of the `errors_only` filter of `get_all_logs`. -/
def errorPatterns : List String :=
  ["error", "Error", "ERROR", "failed", "Failed", "FAILED", "exception",
   "Exception", "panic", "Panic", "PANIC", "fatal", "Fatal", "FATAL"]

def lookupLogs (l : List (String × List String)) (key : String) : Option (List String) :=
  (l.find? (fun kv => kv.1 == key)).map Prod.snd

/-! ### The 15 tool implementations of `handleToolsCall` -/

def toolListDevices (c : AppContext) : Option Json × Option MCPError :=
  (some (textContent (renderJson (Json.arr ((c.getDevices).map deviceJson)))), none)

def toolRunOnDevice (c : AppContext) (args : List (String × Json)) :
    Option Json × Option MCPError :=
  let deviceID := argString args "deviceId"
  let liveReload := argBool args "liveReload"
  if deviceID == "" then
    (none, some { code := -32602, message := "deviceId required" })
  else
    match c.runOnDevice deviceID liveReload with
    | some e => (none, some { code := -32000, message := e })
    | none => (some (textContent ("Started run on " ++ deviceID)), none)

def toolRunWeb (c : AppContext) : Option Json × Option MCPError :=
  match c.runWeb with
  | some e => (none, some { code := -32000, message := e })
  | none => (some (textContent "Web dev server started"), none)

def toolSync (c : AppContext) (args : List (String × Json)) :
    Option Json × Option MCPError :=
  let platform := argString args "platform"
  match c.sync platform with
  | some e => (none, some { code := -32000, message := e })
  | none =>
      let msg := if platform == "" then "Sync started" else "Sync started for " ++ platform
      (some (textContent msg), none)

def toolBuild (c : AppContext) : Option Json × Option MCPError :=
  match c.build with
  | some e => (none, some { code := -32000, message := e })
  | none => (some (textContent "Build started"), none)

def toolOpenIDE (c : AppContext) (args : List (String × Json)) :
    Option Json × Option MCPError :=
  let platform := argString args "platform"
  if platform == "" then
    (none, some { code := -32602, message := "platform required" })
  else
    match c.openIDE platform with
    | some e => (none, some { code := -32000, message := e })
    | none => (some (textContent ("Opening " ++ platform ++ " IDE")), none)

def toolGetProcesses (c : AppContext) : Option Json × Option MCPError :=
  (some (textContent (renderJson (Json.arr ((c.getProcesses).map processInfoJson)))), none)

def toolGetLogs (c : AppContext) (args : List (String × Json)) :
    Option Json × Option MCPError :=
  let processID := argString args "processId"
  if processID == "" then
    (none, some { code := -32602, message := "processId required" })
  else
    let logs := c.getProcessLogs processID
    (some (textContent (renderJson (Json.arr (logs.map Json.str)))), none)

def toolGetAllLogs (c : AppContext) (args : List (String × Json)) :
    Option Json × Option MCPError :=
  let allLogs := c.getAllLogs
  let processes := c.getProcesses
  let typeFilter := argString args "type"
  let statusFilter := argString args "status"
  let searchPattern := argString args "search"
  let errorsOnly := argBool args "errors_only"
  let tail : Int :=
    match lookupField args "tail" with
    | some (Json.num t) => truncToInt t
    | _ => 0
  let entries := processes.filterMap fun proc =>
    if typeFilter ≠ "" ∧ containsIgnoreCase proc.name typeFilter = false ∧
        containsIgnoreCase proc.command typeFilter = false then none
    else if statusFilter ≠ "" ∧ proc.status ≠ statusFilter then none
    else
      match lookupLogs allLogs proc.id with
      | none => none
      | some logs0 =>
          let logs1 := if searchPattern ≠ "" then
              logs0.filter (fun line => containsIgnoreCase line searchPattern)
            else logs0
          let logs2 := if errorsOnly then
              logs1.filter (fun line => errorPatterns.any (fun pat => containsSub line pat))
            else logs1
          if logs2.length = 0 ∧ (searchPattern ≠ "" ∨ errorsOnly = true) then none
          else
            let logs3 := if 0 < tail ∧ tail < (logs2.length : Int) then
                logs2.drop (logs2.length - tail.toNat)
              else logs2
            some (proc.id, Json.obj [
              ("name", Json.str proc.name),
              ("status", Json.str proc.status),
              ("command", Json.str proc.command),
              ("logs", Json.arr (logs3.map Json.str))])
  (some (textContent (renderJson (Json.obj entries))), none)

def toolKillProcess (c : AppContext) (args : List (String × Json)) :
    Option Json × Option MCPError :=
  let processID := argString args "processId"
  if processID == "" then
    (none, some { code := -32602, message := "processId required" })
  else
    match c.killProcess processID with
    | some e => (none, some { code := -32000, message := e })
    | none => (some (textContent "Process killed"), none)

def toolGetDebugActions (c : AppContext) : Option Json × Option MCPError :=
  (some (textContent (renderJson (Json.arr ((c.getDebugActions).map debugActionJson)))), none)

def toolRunDebugAction (c : AppContext) (args : List (String × Json)) :
    Option Json × Option MCPError :=
  let actionID := argString args "actionId"
  if actionID == "" then
    (none, some { code := -32602, message := "actionId required" })
  else
    (some (textContent (renderJson (debugResultJson (c.runDebugAction actionID)))), none)

def toolGetSettings (c : AppContext) : Option Json × Option MCPError :=
  let payload := match c.getSettings with
    | some s => settingsStoreJson s
    | none => Json.null
  (some (textContent (renderJson payload)), none)

/-- `toolSetSetting` threads the bridge state: the stored settings change on
success. -/
def toolSetSetting (c : AppContext) (args : List (String × Json)) :
    AppContext × Option Json × Option MCPError :=
  let key := argString args "key"
  let value : GoValue :=
    match lookupField args "value" with
    | none => GoValue.nil
    | some j => jsonToGo j
  if key == "" then
    (c, none, some { code := -32602, message := "key required" })
  else
    match c.setSetting key value with
    | (c1, some e) => (c1, none, some { code := -32000, message := e })
    | (c1, none) => (c1, some (textContent "Setting updated"), none)

def toolGetProject (c : AppContext) : Option Json × Option MCPError :=
  match c.getProject with
  | none => (none, some { code := -32000, message := "No project loaded" })
  | some project => (some (textContent (renderJson (projectJson project))), none)

/-- `handleToolsCall`: decode the call struct, dispatch on the tool name;
an unknown name is answered with -32601. -/
def handleToolsCall (c : AppContext) (params : Option Json) :
    AppContext × Option Json × Option MCPError :=
  match decodeToolCall params with
  | none => (c, none, some { code := -32602, message := "Invalid params" })
  | some call =>
      if call.name == "list_devices" then (c, toolListDevices c)
      else if call.name == "run_on_device" then (c, toolRunOnDevice c call.arguments)
      else if call.name == "run_web" then (c, toolRunWeb c)
      else if call.name == "sync" then (c, toolSync c call.arguments)
      else if call.name == "build" then (c, toolBuild c)
      else if call.name == "open_ide" then (c, toolOpenIDE c call.arguments)
      else if call.name == "get_processes" then (c, toolGetProcesses c)
      else if call.name == "get_logs" then (c, toolGetLogs c call.arguments)
      else if call.name == "get_all_logs" then (c, toolGetAllLogs c call.arguments)
      else if call.name == "kill_process" then (c, toolKillProcess c call.arguments)
      else if call.name == "get_debug_actions" then (c, toolGetDebugActions c)
      else if call.name == "run_debug_action" then (c, toolRunDebugAction c call.arguments)
      else if call.name == "get_settings" then (c, toolGetSettings c)
      else if call.name == "set_setting" then toolSetSetting c call.arguments
      else if call.name == "get_project" then (c, toolGetProject c)
      else (c, none, some { code := -32601, message := "Unknown tool: " ++ call.name })

/-- The response to an unparseable request line: code -32700 and no
correlation ID (the zero `MCPResponse` carries JSON null as its ID). -/
def parseErrorResponse : MCPResponse :=
  { jsonrpc := "2.0"
    id := Json.null
    result := none
    error := some { code := -32700, message := "Parse error" } }

/-- `handleRequest`: the per-line dispatch.  The three known methods route
to their handlers; anything else is -32601 with the request ID echoed.  The
bridge state is threaded because `tools/call` may change settings. -/
def handleRequest (c : AppContext) : Option MCPRequest → AppContext × MCPResponse
  | none => (c, parseErrorResponse)
  | some req =>
      if req.method == "initialize" then
        (c, { jsonrpc := "2.0", id := req.id, result := some handleInitialize, error := none })
      else if req.method == "tools/list" then
        (c, { jsonrpc := "2.0", id := req.id, result := some handleToolsList, error := none })
      else if req.method == "tools/call" then
        let out := handleToolsCall c req.params
        (out.1, { jsonrpc := "2.0", id := req.id, result := out.2.1, error := out.2.2 })
      else
        (c, { jsonrpc := "2.0", id := req.id, result := none,
              error := some { code := -32601, message := "Method not found" } })

/-- `handleConnection` / `runStdio` over the lines of one session in which
the stop signal never fires: every scanned line is answered and the loop
continues to the next line regardless of the previous outcome. -/
def handleLines (c : AppContext) : List (Option MCPRequest) → AppContext × List MCPResponse
  | [] => (c, [])
  | l :: ls =>
      let step := handleRequest c l
      let rest := handleLines step.1 ls
      (rest.1, step.2 :: rest.2)


/-! # Theorems

Supporting lemmas first, then one theorem per claim (with witnesses and
counterexamples where required). -/

/-! ## Log buffer lemmas -/

theorem lastN_of_le {α} (n : Nat) (l : List α) (h : l.length ≤ n) :
    lastN n l = l := by
  unfold lastN
  have : l.length - n = 0 := by omega
  rw [this, List.drop_zero]

theorem length_lastN {α} (n : Nat) (l : List α) :
    (lastN n l).length = min n l.length := by
  unfold lastN
  rw [List.length_drop]
  omega

theorem drop_append_of_le {α} (k : Nat) (l r : List α) (h : k ≤ l.length) :
    (l ++ r).drop k = l.drop k ++ r := by
  rw [List.drop_append_eq_append_drop]
  have hk : k - l.length = 0 := by omega
  rw [hk, List.drop_zero]

theorem lastN_append_left {α} (n : Nat) (l r : List α) :
    lastN n (lastN n l ++ r) = lastN n (l ++ r) := by
  have hk : l.length - n ≤ l.length := Nat.sub_le _ _
  unfold lastN
  rw [← drop_append_of_le (l.length - n) l r hk, List.drop_drop]
  congr 1
  simp only [List.length_append, List.length_drop]
  omega

theorem addLogLines_eq_lastN (logs : List String) (line : String) :
    addLogLines logs line = lastN maxLogLines (logs ++ [line]) := by
  unfold addLogLines lastN
  by_cases hlen : (logs ++ [line]).length > maxLogLines
  · simp only [hlen, if_true]
  · simp only [hlen, if_false]
    have : (logs ++ [line]).length - maxLogLines = 0 := by omega
    rw [this, List.drop_zero]

theorem addLogLines_length_le (logs : List String) (line : String) :
    (addLogLines logs line).length ≤ maxLogLines := by
  rw [addLogLines_eq_lastN logs line, length_lastN]
  omega

theorem foldl_addLogLines (lines : List String) (init : List String)
    (h : init.length ≤ maxLogLines) :
    lines.foldl addLogLines init = lastN maxLogLines (init ++ lines) := by
  induction lines generalizing init with
  | nil =>
      rw [List.foldl_nil, List.append_nil, lastN_of_le _ _ h]
  | cons x xs ih =>
      rw [List.foldl_cons, ih _ (addLogLines_length_le _ _),
        addLogLines_eq_lastN _ _, lastN_append_left]
      congr 1
      simp

theorem addLogLines_full (logs : List String) (line : String)
    (h : logs.length = maxLogLines) :
    addLogLines logs line = logs.drop 1 ++ [line] := by
  have h1 : 1 ≤ logs.length := by
    rw [h]
    decide
  unfold addLogLines
  have hlen : (logs ++ [line]).length = maxLogLines + 1 := by
    rw [List.length_append, h]
    rfl
  simp only [hlen, if_pos (Nat.lt_succ_self maxLogLines), Nat.add_sub_cancel_left]
  exact drop_append_of_le 1 logs [line] h1

/-! ## UI transition lemmas: the lifecycle invariant and the step relation -/

theorem updateFirst_length (pred : α → Bool) (f : α → α) (l : List α) :
    (updateFirst pred f l).length = l.length := by
  induction l with
  | nil => rfl
  | cons x xs ih =>
      unfold updateFirst
      split
      · rfl
      · simp [ih]

theorem updateFirst_mem (pred : α → Bool) (f : α → α) (l : List α) (q : α)
    (hq : q ∈ updateFirst pred f l) :
    q ∈ l ∨ ∃ p ∈ l, pred p = true ∧ q = f p := by
  induction l with
  | nil => simp [updateFirst] at hq
  | cons x xs ih =>
      unfold updateFirst at hq
      by_cases hx : pred x = true
      · rw [if_pos hx] at hq
        rcases List.mem_cons.mp hq with h | h
        · exact Or.inr ⟨x, List.mem_cons_self x xs, hx, h⟩
        · exact Or.inl (List.mem_cons_of_mem x h)
      · rw [if_neg hx] at hq
        rcases List.mem_cons.mp hq with h | h
        · exact Or.inl (h ▸ List.mem_cons_self x xs)
        · rcases ih h with h2 | ⟨p, hp, hpred, hfp⟩
          · exact Or.inl (List.mem_cons_of_mem x h2)
          · exact Or.inr ⟨p, List.mem_cons_of_mem x hp, hpred, hfp⟩

theorem updateFirst_get? (pred : α → Bool) (f : α → α) (l : List α) (i : Nat) :
    (updateFirst pred f l).get? i = l.get? i ∨
    ∃ p, l.get? i = some p ∧ pred p = true ∧
      (updateFirst pred f l).get? i = some (f p) := by
  induction l generalizing i with
  | nil => exact Or.inl rfl
  | cons x xs ih =>
      have hdef : updateFirst pred f (x :: xs) =
          if pred x then f x :: xs else x :: updateFirst pred f xs := rfl
      rw [hdef]
      by_cases hx : pred x = true
      · rw [if_pos hx]
        match i with
        | 0 => exact Or.inr ⟨x, rfl, hx, rfl⟩
        | i + 1 => exact Or.inl rfl
      · rw [if_neg hx]
        match i with
        | 0 => exact Or.inl rfl
        | i + 1 => exact ih i

theorem pid_ne_system (k : Nat) : ("p" ++ toString k) ≠ "system" := by
  intro h
  have h2 := congrArg String.data h
  rw [String.data_append] at h2
  rw [show "p".data = ['p'] from rfl, show "system".data = ['s', 'y', 's', 't', 'e', 'm'] from rfl] at h2
  simp at h2

theorem lifecycleOk_addLog (p : Process) (line : String) :
    (p.addLog line).lifecycleOk ↔ p.lifecycleOk := by
  simp [Process.addLog, Process.lifecycleOk]

theorem lifecycleInv_applyEvent (m : UIModel) (e : UIEvent)
    (hm : m.lifecycleInv) : (applyEvent m e).lifecycleInv := by
  intro q hq
  cases e with
  | createProcess name command =>
      simp only [applyEvent, applyCreateProcess] at hq
      rcases List.mem_append.mp hq with h | h
      · exact hm q h
      · have hq2 : q = _ := List.mem_singleton.mp h
        subst hq2
        unfold Process.lifecycleOk
        rw [if_neg (pid_ne_system m.nextProcessID)]
        simp [ProcessStatus.isTerminal]
  | addLog line =>
      rcases hps : m.processes with _ | ⟨p, rest⟩
      · simp only [applyEvent, applyAddLog, hps, List.mem_singleton] at hq
        subst hq
        unfold Process.lifecycleOk
        simp
      · simp only [applyEvent, applyAddLog, hps] at hq
        rcases List.mem_cons.mp hq with h | h
        · subst h
          rw [lifecycleOk_addLog]
          exact hm p (hps ▸ List.mem_cons_self p rest)
        · exact hm q (hps ▸ List.mem_cons_of_mem p h)
  | processStarted pid =>
      simp only [applyEvent, applyProcessStarted] at hq
      rcases updateFirst_mem _ _ _ _ hq with h | ⟨p, hp, _, hfp⟩
      · exact hm q h
      · subst hfp
        have := hm p hp
        unfold Process.lifecycleOk at this ⊢
        simpa using this
  | processOutput pid line =>
      simp only [applyEvent, applyProcessOutput] at hq
      split at hq
      · exact hm q hq
      · rcases updateFirst_mem _ _ _ _ hq with h | ⟨p, hp, _, hfp⟩
        · exact hm q h
        · subst hfp
          have hpok := hm p hp
          by_cases hc : (cleanOutputLine line == "") = true
          · rw [if_pos hc]
            exact hpok
          · rw [if_neg hc, lifecycleOk_addLog]
            exact hpok
  | processFinished pid errMsg =>
      simp only [applyEvent, applyProcessFinished] at hq
      rcases updateFirst_mem _ _ _ _ hq with h | ⟨p, hp, hpred, hfp⟩
      · exact hm q h
      · subst hfp
        simp only [Bool.and_eq_true, beq_iff_eq] at hpred
        have hrun : p.status = ProcessStatus.running := hpred.2
        have hid : p.id ≠ "system" := by
          intro hsys
          have := hm p hp
          unfold Process.lifecycleOk at this
          rw [if_pos hsys] at this
          rw [this.1] at hrun
          exact ProcessStatus.noConfusion hrun
        cases errMsg with
        | some e =>
            unfold Process.lifecycleOk
            simp [Process.addLog, hid, ProcessStatus.isTerminal]
        | none =>
            unfold Process.lifecycleOk
            simp [Process.addLog, hid, ProcessStatus.isTerminal]
  | killSelected idx =>
      rcases hget : m.processes.get? idx with _ | ⟨p⟩
      · simp only [applyEvent, applyKillSelected, hget] at hq
        exact hm q hq
      · simp only [applyEvent, applyKillSelected, hget] at hq
        split at hq
        · next hcond =>
            rcases List.mem_or_eq_of_mem_set hq with h | h
            · exact hm q h
            · subst h
              simp only [Bool.and_eq_true, beq_iff_eq] at hcond
              have hp : p ∈ m.processes := List.get?_mem hget
              have hid : p.id ≠ "system" := by
                intro hsys
                have hpok := hm p hp
                unfold Process.lifecycleOk at hpok
                rw [if_pos hsys] at hpok
                rw [hpok.1] at hcond
                exact ProcessStatus.noConfusion hcond.1
              unfold Process.lifecycleOk
              simp [Process.addLog, hid, ProcessStatus.isTerminal]
        · exact hm q hq

theorem lifecycleInv_foldl (evs : List UIEvent) (m : UIModel)
    (hm : m.lifecycleInv) : (evs.foldl applyEvent m).lifecycleInv := by
  induction evs generalizing m with
  | nil => exact hm
  | cons e evs ih => exact ih _ (lifecycleInv_applyEvent m e hm)

theorem lifecycleInv_runEvents (evs : List UIEvent) :
    (runEvents evs).lifecycleInv := by
  apply lifecycleInv_foldl
  intro p hp
  simp [initModel] at hp

/-- One step of the loop either leaves a process's status and end time
unchanged, or moves it from Running to a terminal status while setting its
end time: no step resurrects a terminal process or clears an end time. -/
theorem applyEvent_step (m : UIModel) (e : UIEvent) (i : Nat) (p q : Process)
    (hp : m.processes.get? i = some p)
    (hq : (applyEvent m e).processes.get? i = some q) :
    (q.status = p.status ∧ q.endTime = p.endTime) ∨
    (p.status = ProcessStatus.running ∧ q.status.isTerminal = true ∧
      q.endTime.isSome = true) := by
  cases e with
  | createProcess name command =>
      left
      simp only [applyEvent, applyCreateProcess] at hq
      have hlen : i < m.processes.length := (List.get?_eq_some.mp hp).choose
      rw [List.get?_append hlen, hp] at hq
      injection hq with hq
      subst hq
      exact ⟨rfl, rfl⟩
  | addLog line =>
      left
      rcases hps : m.processes with _ | ⟨phead, rest⟩
      · rw [hps] at hp
        exact absurd hp (by simp)
      · simp only [applyEvent, applyAddLog, hps] at hq
        rw [hps] at hp
        match i, hp, hq with
        | 0, hp, hq =>
            injection hp with hp
            injection hq with hq
            subst hp
            subst hq
            exact ⟨rfl, rfl⟩
        | i + 1, hp, hq =>
            rw [show (phead :: rest).get? (i + 1) = rest.get? i from rfl] at hp
            rw [show ((phead.addLog _) :: rest).get? (i + 1) = rest.get? i from rfl,
              hp] at hq
            injection hq with hq
            subst hq
            exact ⟨rfl, rfl⟩
  | processStarted pid =>
      left
      simp only [applyEvent, applyProcessStarted] at hq
      rcases updateFirst_get? (fun p => p.id == pid) _ m.processes i with h | ⟨r, hr, _, hr2⟩
      · rw [h, hp] at hq
        injection hq with hq
        subst hq
        exact ⟨rfl, rfl⟩
      · rw [hp] at hr
        injection hr with hr
        subst hr
        rw [hr2] at hq
        injection hq with hq
        subst hq
        exact ⟨rfl, rfl⟩
  | processOutput pid line =>
      left
      simp only [applyEvent, applyProcessOutput] at hq
      split at hq
      · rw [hp] at hq
        injection hq with hq
        subst hq
        exact ⟨rfl, rfl⟩
      · rcases updateFirst_get? (fun p => p.id == pid) _ m.processes i with h | ⟨r, hr, _, hr2⟩
        · rw [h, hp] at hq
          injection hq with hq
          subst hq
          exact ⟨rfl, rfl⟩
        · rw [hp] at hr
          injection hr with hr
          subst hr
          rw [hr2] at hq
          injection hq with hq
          subst hq
          by_cases hc : (cleanOutputLine line == "") = true
          · rw [if_pos hc]
            exact ⟨rfl, rfl⟩
          · rw [if_neg hc]
            exact ⟨rfl, rfl⟩
  | processFinished pid errMsg =>
      simp only [applyEvent, applyProcessFinished] at hq
      rcases updateFirst_get? _ _ m.processes i with h | ⟨r, hr, hpred, hr2⟩
      · left
        rw [h, hp] at hq
        injection hq with hq
        subst hq
        exact ⟨rfl, rfl⟩
      · right
        rw [hp] at hr
        injection hr with hr
        subst hr
        simp only [Bool.and_eq_true, beq_iff_eq] at hpred
        rw [hr2] at hq
        injection hq with hq
        subst hq
        refine ⟨hpred.2, ?_, ?_⟩
        · cases errMsg with
          | some err => rfl
          | none => rfl
        · cases errMsg with
          | some err => rfl
          | none => rfl
  | killSelected idx =>
      rcases hget : m.processes.get? idx with _ | ⟨r⟩
      · left
        simp only [applyEvent, applyKillSelected, hget] at hq
        rw [hp] at hq
        injection hq with hq
        subst hq
        exact ⟨rfl, rfl⟩
      · simp only [applyEvent, applyKillSelected, hget] at hq
        split at hq
        · next hcond =>
            by_cases hidx : idx = i
            · subst hidx
              have hlen : idx < m.processes.length := (List.get?_eq_some.mp hp).choose
              rw [List.get?_set_eq_of_lt _ hlen] at hq
              injection hq with hq
              subst hq
              rw [hp] at hget
              injection hget with hget
              subst hget
              simp only [Bool.and_eq_true, beq_iff_eq] at hcond
              exact Or.inr ⟨hcond.1, rfl, rfl⟩
            · left
              rw [List.get?_set_ne _ _ hidx, hp] at hq
              injection hq with hq
              subst hq
              exact ⟨rfl, rfl⟩
        · left
          rw [hp] at hq
          injection hq with hq
          subst hq
          exact ⟨rfl, rfl⟩

/-! ## Claim theorems -/

/-- C2: For every process the stored log never exceeds 5000 lines; AddLog
on a full log evicts the oldest line first (FIFO); and after any sequence
of AddLog calls starting from a within-bounds buffer, the log equals the
last 5000 lines ever added. -/
theorem claim_C2_log_capped_fifo :
    (∀ (logs : List String) (line : String),
      (addLogLines logs line).length ≤ maxLogLines) ∧
    (∀ (logs : List String) (line : String), logs.length = maxLogLines →
      addLogLines logs line = logs.drop 1 ++ [line]) ∧
    (∀ (lines : List String) (init : List String), init.length ≤ maxLogLines →
      lines.foldl addLogLines init = lastN maxLogLines (init ++ lines)) :=
  ⟨addLogLines_length_le, addLogLines_full, foldl_addLogLines⟩

/-- C2 witness: the theorem evaluated at concrete inputs — a full
5000-line buffer drops its oldest entry, and a fold from the empty buffer
yields exactly the lines added. -/
theorem claim_C2_log_capped_fifo_witness :
    (addLogLines (List.replicate maxLogLines "x") "y").length ≤ maxLogLines ∧
    addLogLines (List.replicate maxLogLines "x") "y" =
      (List.replicate maxLogLines "x").drop 1 ++ ["y"] ∧
    List.foldl addLogLines [] ["a", "b", "c"] =
      lastN maxLogLines (([] : List String) ++ ["a", "b", "c"]) := by
  refine ⟨claim_C2_log_capped_fifo.1 _ "y", ?_, ?_⟩
  · exact claim_C2_log_capped_fifo.2.1 _ "y" (by simp)
  · exact claim_C2_log_capped_fifo.2.2 ["a", "b", "c"] [] (by simp)

/-- C3: enqueueing a decoded output line onto the per-process queue
(capacity 100) and enqueueing a plugin log entry through the bridge Log are
total functions (never blocking): with room the item is appended at the
tail, on a full queue it is dropped and the queue is unchanged. -/
theorem claim_C3_nonblocking_enqueue :
    (∀ (ch : List String) (line : String), ch.length < processQueueCap →
      enqueueOutputLine ch line = ch ++ [line]) ∧
    (∀ (ch : List String) (line : String), processQueueCap ≤ ch.length →
      enqueueOutputLine ch line = ch) ∧
    (∀ (c : AppContext) (pluginID msg : String), c.logChan.length < processQueueCap →
      (c.log pluginID msg).logChan =
        c.logChan ++ [{ pluginID := pluginID, message := msg, time := c.clock }]) ∧
    (∀ (c : AppContext) (pluginID msg : String), processQueueCap ≤ c.logChan.length →
      (c.log pluginID msg).logChan = c.logChan) := by
  refine ⟨?_, ?_, ?_, ?_⟩
  · intro ch line h
    unfold enqueueOutputLine trySend
    rw [if_pos h]
  · intro ch line h
    unfold enqueueOutputLine trySend
    rw [if_neg (by omega)]
  · intro c pluginID msg h
    unfold AppContext.log trySend
    simp only [if_pos h]
  · intro c pluginID msg h
    unfold AppContext.log trySend
    simp only [if_neg (show ¬c.logChan.length < processQueueCap by omega)]

/-- C3 witness: an enqueue on an empty queue appends; an enqueue on a full
100-element queue leaves it unchanged; the bridge Log on a fresh context
enqueues its entry. -/
theorem claim_C3_nonblocking_enqueue_witness :
    enqueueOutputLine [] "line1" = ["line1"] ∧
    enqueueOutputLine (List.replicate processQueueCap "z") "line2" =
      List.replicate processQueueCap "z" ∧
    (newAppContext.log "mcp-server" "hello").logChan =
      [{ pluginID := "mcp-server", message := "hello", time := 0 }] := by
  refine ⟨?_, ?_, ?_⟩
  · exact claim_C3_nonblocking_enqueue.1 [] "line1" (by decide)
  · exact claim_C3_nonblocking_enqueue.2.1 _ "line2" (by simp)
  · exact claim_C3_nonblocking_enqueue.2.2.1 newAppContext "mcp-server" "hello" (by decide)

/-- C7: Stop is idempotent for both plugins: Stop on a non-running plugin
returns nil and leaves the state untouched (so neither the stop channel nor
the listener/subprocess is closed a second time), and a second Stop after
any Stop is always such a no-op. -/
theorem claim_C7_stop_idempotent :
    (∀ s : MCPServerState, s.running = false → mcpStop s = (s, none)) ∧
    (∀ s : MCPServerState, mcpStop (mcpStop s).1 = ((mcpStop s).1, none)) ∧
    (∀ s : FirebaseState, s.running = false → firebaseStop s = (s, none)) ∧
    (∀ s : FirebaseState, firebaseStop (firebaseStop s).1 = ((firebaseStop s).1, none)) := by
  refine ⟨?_, ?_, ?_, ?_⟩
  · intro s h
    unfold mcpStop
    rw [if_neg (by simp [h])]
  · intro s
    by_cases h : s.running = true
    · simp [mcpStop, h]
    · simp [mcpStop, h]
  · intro s h
    unfold firebaseStop
    rw [if_neg (by simp [h])]
  · intro s
    by_cases h : s.running = true
    · simp [firebaseStop, h]
    · simp [firebaseStop, h]

/-- C7 witness: both freshly constructed (not yet started) plugins answer
Stop with nil and an unchanged state. -/
theorem claim_C7_stop_idempotent_witness :
    mcpStop mcpInitialState = (mcpInitialState, none) ∧
    firebaseStop firebaseInitialState = (firebaseInitialState, none) :=
  ⟨claim_C7_stop_idempotent.1 mcpInitialState rfl,
   claim_C7_stop_idempotent.2.2.1 firebaseInitialState rfl⟩

/-- C9: Start on an already-running plugin returns nil immediately and
changes nothing — no second listener is bound and no second subprocess is
spawned — for both plugins, whatever the external bind/spawn would do. -/
theorem claim_C9_start_noop_when_running :
    (∀ (listenOk : Bool) (s : MCPServerState), s.running = true →
      mcpStart listenOk s = (s, none)) ∧
    (∀ (startOk : Bool) (s : FirebaseState), s.running = true →
      firebaseStart startOk s = (s, none)) := by
  constructor
  · intro listenOk s h
    unfold mcpStart
    rw [if_pos h]
  · intro startOk s h
    unfold firebaseStart
    rw [if_pos h]

/-- C9 witness: a running MCP server with a bound listener and a running
Firebase supervisor with a live subprocess: Start is the identity. -/
theorem claim_C9_start_noop_when_running_witness :
    mcpStart true { mcpInitialState with running := true, hasListener := true } =
      ({ mcpInitialState with running := true, hasListener := true }, none) ∧
    firebaseStart true { firebaseInitialState with running := true, hasCmd := true } =
      ({ firebaseInitialState with running := true, hasCmd := true }, none) :=
  ⟨claim_C9_start_noop_when_running.1 true _ rfl,
   claim_C9_start_noop_when_running.2 true _ rfl⟩

/-- C8 counterexample: `GetProcesses` invoked on the freshly constructed,
un-wired bridge returns the empty list: its Go signature carries no error
value, so the claimed "operation unavailable" error is not (and cannot be)
returned — the claim quantified over every exposed operation is false. -/
theorem claim_C8_counterexample :
    newAppContext.getProcesses = [] ∧
    opError BridgeOp.getProcesses = none ∧
    ¬ (∀ op : BridgeOp, (opError op).isSome = true) := by
  refine ⟨rfl, rfl, ?_⟩
  intro h
  have h2 := h BridgeOp.getProcesses
  simp [opError] at h2

/-- C8 (amended): on the un-wired bridge every error-returning operation
yields its "... not available" error and no callback is invoked; the pure
getters, whose signatures carry no error component, return their empty/nil
value rather than faulting. -/
theorem claim_C8_unwired_bridge :
    newAppContext.refreshDevices = some "refresh not available" ∧
    (∀ deviceID liveReload,
      newAppContext.runOnDevice deviceID liveReload = some "run not available") ∧
    newAppContext.runWeb = some "run web not available" ∧
    (∀ platform, newAppContext.sync platform = some "sync not available") ∧
    newAppContext.build = some "build not available" ∧
    (∀ platform, newAppContext.openIDE platform = some "open IDE not available") ∧
    (∀ processID, newAppContext.killProcess processID = some "kill not available") ∧
    (∀ key value, (newAppContext.setSetting key value).2 = some "settings not available" ∧
      (newAppContext.setSetting key value).1 = newAppContext) ∧
    newAppContext.saveSettings = some "settings not available" ∧
    newAppContext.getDevices = [] ∧
    newAppContext.getSelectedDevice = none ∧
    newAppContext.getProcesses = [] ∧
    (∀ processID, newAppContext.getProcessLogs processID = []) ∧
    newAppContext.getAllLogs = [] ∧
    newAppContext.getProject = none ∧
    newAppContext.getSettings = none :=
  ⟨rfl, fun _ _ => rfl, rfl, fun _ => rfl, rfl, fun _ => rfl, fun _ => rfl,
   fun _ _ => ⟨rfl, rfl⟩, rfl, rfl, rfl, rfl, fun _ => rfl, rfl, rfl, rfl⟩

/-- C1 counterexample: after a single `Model.addLog` on the fresh model the
tracked process list holds the synthetic system process, whose status is the
terminal Succeeded while its end time is unset — refuting "the end time is
set iff the status is terminal" for tracked processes. -/
theorem claim_C1_counterexample :
    ((runEvents [UIEvent.addLog "boot"]).processes.get? 0).map Process.status =
      some ProcessStatus.success ∧
    ((runEvents [UIEvent.addLog "boot"]).processes.get? 0).map Process.endTime =
      some none ∧
    ProcessStatus.success.isTerminal = true := by
  refine ⟨?_, ?_, rfl⟩ <;> rfl

/-- C1 (amended): across every run of the loop, each tracked process
changes status at most once — a step either leaves status and end time
unchanged or moves the process from Running to one terminal value, setting
the end time at that moment, after which both are frozen; and in every
reachable state "end time set iff status terminal" holds for every tracked
process except the synthetic system log process, which is created already
Succeeded and never receives an end time. -/
theorem claim_C1_status_lifecycle :
    (∀ evs : List UIEvent, ∀ p ∈ (runEvents evs).processes,
      (p.id = "system" → p.status = ProcessStatus.success ∧ p.endTime = none) ∧
      (p.id ≠ "system" → (p.endTime.isSome = true ↔ p.status.isTerminal = true))) ∧
    (∀ (m : UIModel) (e : UIEvent) (i : Nat) (p q : Process),
      m.processes.get? i = some p →
      (applyEvent m e).processes.get? i = some q →
      ((q.status = p.status ∧ q.endTime = p.endTime) ∨
        (p.status = ProcessStatus.running ∧ q.status.isTerminal = true ∧
          q.endTime.isSome = true))) := by
  constructor
  · intro evs p hp
    have hinv := lifecycleInv_runEvents evs p hp
    unfold Process.lifecycleOk at hinv
    constructor
    · intro hid
      rwa [if_pos hid] at hinv
    · intro hid
      rwa [if_neg hid] at hinv
  · exact applyEvent_step

/-- C1 witness: the theorem evaluated on the concrete run that creates one
process and then finishes it cleanly: the created Running process satisfies
the end-time relationship, and the finishing step is a Running-to-terminal
transition that sets the end time. -/
theorem claim_C1_status_lifecycle_witness :
    (let p : Process :=
      { id := "p1"
        name := "Build"
        command := "npm run build"
        status := ProcessStatus.running
        startTime := 0
        endTime := none
        logs := ["[0] $ npm run build"]
        hasCmd := false }
     (p.id = "system" → p.status = ProcessStatus.success ∧ p.endTime = none) ∧
     (p.id ≠ "system" → (p.endTime.isSome = true ↔ p.status.isTerminal = true))) ∧
    (let p : Process :=
      { id := "p1"
        name := "Build"
        command := "npm run build"
        status := ProcessStatus.running
        startTime := 0
        endTime := none
        logs := ["[0] $ npm run build"]
        hasCmd := false }
     let q : Process :=
      { p with
        status := ProcessStatus.success
        endTime := some 1
        logs := ["[0] $ npm run build", "✓ Done"] }
     (q.status = p.status ∧ q.endTime = p.endTime) ∨
       (p.status = ProcessStatus.running ∧ q.status.isTerminal = true ∧
         q.endTime.isSome = true)) := by
  constructor
  · exact claim_C1_status_lifecycle.1 [UIEvent.createProcess "Build" "npm run build"] _
      (by decide)
  · exact claim_C1_status_lifecycle.2
      (runEvents [UIEvent.createProcess "Build" "npm run build"])
      (UIEvent.processFinished "p1" none) 0 _ _ (by decide) (by decide)

/-- C6: `tools/list` is dispatched to a handler that reads no server state:
for every bridge state (in particular one that has never served
`initialize`) and any request ID and params, the response result is the one
static catalog, which consists of exactly the 15 named tools. -/
theorem claim_C6_tools_list_static :
    (∀ (c : AppContext) (id : Json) (params : Option Json),
      handleRequest c
          (some { jsonrpc := "2.0", id := id, method := "tools/list", params := params }) =
        (c, { jsonrpc := "2.0", id := id, result := some handleToolsList, error := none })) ∧
    handleToolsList =
      Json.obj [("tools", Json.arr (toolCatalog.map fun n => Json.obj [("name", Json.str n)]))] ∧
    toolCatalog =
      ["list_devices", "run_on_device", "run_web", "sync", "build", "open_ide",
       "get_processes", "get_logs", "get_all_logs", "kill_process",
       "get_debug_actions", "run_debug_action", "get_settings", "set_setting",
       "get_project"] ∧
    toolCatalog.length = 15 := by
  refine ⟨?_, rfl, rfl, rfl⟩
  intro c id params
  rfl

/-! ## Protocol dispatch lemmas (for C4, C5, C10) -/

theorem handleLines_length (c : AppContext) (lines : List (Option MCPRequest)) :
    (handleLines c lines).2.length = lines.length := by
  induction lines generalizing c with
  | nil => rfl
  | cons l ls ih =>
      unfold handleLines
      simp only [List.length_cons, ih]

theorem handleLines_get? (c : AppContext) (lines : List (Option MCPRequest)) (i : Nat)
    (req? : Option MCPRequest) (h : lines.get? i = some req?) :
    ∃ c', (handleLines c lines).2.get? i = some (handleRequest c' req?).2 := by
  induction lines generalizing c i with
  | nil => simp at h
  | cons l ls ih =>
      match i with
      | 0 =>
          injection h with h
          subst h
          exact ⟨c, rfl⟩
      | i + 1 =>
          exact ih (handleRequest c l).1 i h

theorem handleRequest_unknown (c : AppContext) (req : MCPRequest)
    (h : req.method ∉ (["initialize", "tools/list", "tools/call"] : List String)) :
    handleRequest c (some req) =
      (c, { jsonrpc := "2.0", id := req.id, result := none,
            error := some { code := -32601, message := "Method not found" } }) := by
  have h1 : req.method ≠ "initialize" := fun he => h (by simp [he])
  have h2 : req.method ≠ "tools/list" := fun he => h (by simp [he])
  have h3 : req.method ≠ "tools/call" := fun he => h (by simp [he])
  show (if (req.method == "initialize") = true then _ else _) = _
  rw [if_neg (by simp [h1]), if_neg (by simp [h2]), if_neg (by simp [h3])]

theorem handleRequest_tools_call (c : AppContext) (id : Json) (params : Option Json) :
    handleRequest c
        (some { jsonrpc := "2.0", id := id, method := "tools/call", params := params }) =
      ((handleToolsCall c params).1,
        { jsonrpc := "2.0", id := id, result := (handleToolsCall c params).2.1,
          error := (handleToolsCall c params).2.2 }) := rfl

/-- A `deviceId` argument that is missing, of a non-string type, or the
empty string yields the empty Go string from the discarded-ok type
assertion. -/
theorem argString_eq_empty (args : List (String × Json)) (key : String)
    (h : ∀ s, lookupField args key = some (Json.str s) → s = "") :
    argString args key = "" := by
  unfold argString
  cases hl : lookupField args key with
  | none => rfl
  | some j =>
      cases j with
      | str s => exact h s hl
      | null => rfl
      | bool b => rfl
      | num q => rfl
      | arr l => rfl
      | obj o => rfl

theorem toolRunOnDevice_no_device (c : AppContext) (args : List (String × Json))
    (h : ∀ s, lookupField args "deviceId" = some (Json.str s) → s = "") :
    toolRunOnDevice c args =
      (none, some { code := -32602, message := "deviceId required" }) := by
  unfold toolRunOnDevice
  rw [argString_eq_empty args "deviceId" h]
  rfl

/-- C4: every request line gets exactly one response and the loop keeps
serving subsequent lines; an unparseable line is answered with code -32700
and a null correlation ID; a parsed request with an unknown method is
answered with code -32601 echoing the request ID. -/
theorem claim_C4_protocol_errors :
    (∀ (c : AppContext) (lines : List (Option MCPRequest)),
      (handleLines c lines).2.length = lines.length) ∧
    (parseErrorResponse.error = some { code := -32700, message := "Parse error" } ∧
      parseErrorResponse.id = Json.null ∧ parseErrorResponse.result = none) ∧
    (∀ (c : AppContext) (lines : List (Option MCPRequest)) (i : Nat),
      lines.get? i = some none →
      (handleLines c lines).2.get? i = some parseErrorResponse) ∧
    (∀ (c : AppContext) (lines : List (Option MCPRequest)) (i : Nat) (req : MCPRequest),
      lines.get? i = some (some req) →
      req.method ∉ (["initialize", "tools/list", "tools/call"] : List String) →
      (handleLines c lines).2.get? i =
        some { jsonrpc := "2.0", id := req.id, result := none,
               error := some { code := -32601, message := "Method not found" } }) := by
  refine ⟨handleLines_length, ⟨rfl, rfl, rfl⟩, ?_, ?_⟩
  · intro c lines i h
    obtain ⟨c', hc'⟩ := handleLines_get? c lines i none h
    exact hc'
  · intro c lines i req h hmethod
    obtain ⟨c', hc'⟩ := handleLines_get? c lines i (some req) h
    rw [hc', handleRequest_unknown c' req hmethod]

/-- C4 witness: a connection serving an unparseable line followed by a
request for the unknown method "bogus": two responses, the first the
ID-less parse error, the second method-not-found echoing ID 7. -/
theorem claim_C4_protocol_errors_witness :
    (handleLines newAppContext
        [none, some { jsonrpc := "2.0", id := Json.num 7, method := "bogus", params := none }]).2.length = 2 ∧
    (handleLines newAppContext
        [none, some { jsonrpc := "2.0", id := Json.num 7, method := "bogus", params := none }]).2.get? 0 =
      some parseErrorResponse ∧
    (handleLines newAppContext
        [none, some { jsonrpc := "2.0", id := Json.num 7, method := "bogus", params := none }]).2.get? 1 =
      some { jsonrpc := "2.0", id := Json.num 7, result := none,
             error := some { code := -32601, message := "Method not found" } } := by
  refine ⟨claim_C4_protocol_errors.1 newAppContext _, ?_, ?_⟩
  · exact claim_C4_protocol_errors.2.2.1 newAppContext _ 0 rfl
  · exact claim_C4_protocol_errors.2.2.2 newAppContext _ 1
      { jsonrpc := "2.0", id := Json.num 7, method := "bogus", params := none }
      rfl (by decide)

/-- C5: a `tools/call` for `run_on_device` whose argument map lacks a
deviceId, or whose deviceId is not a non-empty string, is answered with the
invalid-params error -32602 — both at the tool level and through the full
request dispatch — and the (total) dispatcher cannot panic. -/
theorem claim_C5_run_on_device_invalid_params :
    (∀ (c : AppContext) (args : List (String × Json)),
      (∀ s, lookupField args "deviceId" = some (Json.str s) → s = "") →
      toolRunOnDevice c args =
        (none, some { code := -32602, message := "deviceId required" })) ∧
    (∀ (c : AppContext) (id : Json) (params : Option Json) (args : List (String × Json)),
      decodeToolCall params = some { name := "run_on_device", arguments := args } →
      (∀ s, lookupField args "deviceId" = some (Json.str s) → s = "") →
      handleRequest c
          (some { jsonrpc := "2.0", id := id, method := "tools/call", params := params }) =
        (c, { jsonrpc := "2.0", id := id, result := none,
              error := some { code := -32602, message := "deviceId required" } })) := by
  constructor
  · exact toolRunOnDevice_no_device
  · intro c id params args hdec h
    have htc : handleToolsCall c params =
        (c, none, some { code := -32602, message := "deviceId required" }) := by
      unfold handleToolsCall
      rw [hdec]
      show (c, toolRunOnDevice c args) = _
      rw [toolRunOnDevice_no_device c args h]
    rw [handleRequest_tools_call, htc]

/-- C5 witness: a `tools/call` whose params name `run_on_device` with an
empty argument map is answered -32602, at the tool level and end to end. -/
theorem claim_C5_run_on_device_invalid_params_witness :
    toolRunOnDevice newAppContext [] =
      (none, some { code := -32602, message := "deviceId required" }) ∧
    handleRequest newAppContext
        (some { jsonrpc := "2.0", id := Json.num 1, method := "tools/call",
                params := some (Json.obj [("name", Json.str "run_on_device")]) }) =
      (newAppContext,
        { jsonrpc := "2.0", id := Json.num 1, result := none,
          error := some { code := -32602, message := "deviceId required" } }) := by
  constructor
  · exact claim_C5_run_on_device_invalid_params.1 newAppContext []
      (by intro s hs; simp [lookupField] at hs)
  · exact claim_C5_run_on_device_invalid_params.2 newAppContext (Json.num 1)
      (some (Json.obj [("name", Json.str "run_on_device")])) []
      rfl (by intro s hs; simp [lookupField] at hs)

/-! ## SetSetting lemmas (for C10) -/

theorem jsonToGo_ne_int (j : Json) (n : Int) : jsonToGo j ≠ GoValue.int n := by
  cases j <;> simp [jsonToGo]

theorem setSetting_bool (c : AppContext) (st : SettingsStore) (key : String) (b : Bool)
    (hst : c.settings = some st) :
    c.setSetting key (GoValue.bool b) =
      ({ c with settings := some (st.setBool key b) }, none) := by
  unfold AppContext.setSetting
  rw [hst]

theorem setSetting_str (c : AppContext) (st : SettingsStore) (key v : String)
    (hst : c.settings = some st) :
    c.setSetting key (GoValue.str v) =
      ({ c with settings := some (st.setString key v) }, none) := by
  unfold AppContext.setSetting
  rw [hst]

theorem setSetting_int (c : AppContext) (st : SettingsStore) (key : String) (n : Int)
    (hst : c.settings = some st) :
    c.setSetting key (GoValue.int n) =
      ({ c with settings := some (st.setInt key n) }, none) := by
  unfold AppContext.setSetting
  rw [hst]

theorem setSetting_float (c : AppContext) (st : SettingsStore) (key : String) (q : Rat)
    (hst : c.settings = some st) :
    c.setSetting key (GoValue.float q) =
      ({ c with settings := some (st.setInt key (truncToInt q)) }, none) := by
  unfold AppContext.setSetting
  rw [hst]

theorem setSetting_unsupported (c : AppContext) (st : SettingsStore) (key : String)
    (v : GoValue) (hst : c.settings = some st)
    (hv : v = GoValue.nil ∨ (∃ l, v = GoValue.arr l) ∨ ∃ kvs, v = GoValue.obj kvs) :
    c.setSetting key v = (c, some "unsupported setting type") := by
  unfold AppContext.setSetting
  rw [hst]
  rcases hv with h | ⟨l, h⟩ | ⟨kvs, h⟩ <;> subst h <;> rfl

/-- C10: the dynamic type switch of `SetSetting` accepts exactly bool,
string, int and float64 — a float64 is truncated toward zero and stored as
an int, any other value is rejected with "unsupported setting type" leaving
the bridge (and its settings store) unchanged; JSON decoding never produces
a Go int, so a number arriving through the RPC `set_setting` tool always
takes the float64 path and is stored truncated — no non-integral number can
be stored. -/
theorem claim_C10_set_setting_types :
    (∀ (c : AppContext) (st : SettingsStore) (key : String) (b : Bool),
      c.settings = some st →
      c.setSetting key (GoValue.bool b) =
        ({ c with settings := some (st.setBool key b) }, none)) ∧
    (∀ (c : AppContext) (st : SettingsStore) (key v : String),
      c.settings = some st →
      c.setSetting key (GoValue.str v) =
        ({ c with settings := some (st.setString key v) }, none)) ∧
    (∀ (c : AppContext) (st : SettingsStore) (key : String) (n : Int),
      c.settings = some st →
      c.setSetting key (GoValue.int n) =
        ({ c with settings := some (st.setInt key n) }, none)) ∧
    (∀ (c : AppContext) (st : SettingsStore) (key : String) (q : Rat),
      c.settings = some st →
      c.setSetting key (GoValue.float q) =
        ({ c with settings := some (st.setInt key (truncToInt q)) }, none)) ∧
    (∀ (c : AppContext) (st : SettingsStore) (key : String) (v : GoValue),
      c.settings = some st →
      (v = GoValue.nil ∨ (∃ l, v = GoValue.arr l) ∨ ∃ kvs, v = GoValue.obj kvs) →
      c.setSetting key v = (c, some "unsupported setting type")) ∧
    (∀ (j : Json) (n : Int), jsonToGo j ≠ GoValue.int n) ∧
    (∀ (c : AppContext) (st : SettingsStore) (args : List (String × Json))
        (key : String) (q : Rat),
      c.settings = some st →
      argString args "key" = key →
      key ≠ "" →
      lookupField args "value" = some (Json.num q) →
      toolSetSetting c args =
        ({ c with settings := some (st.setInt key (truncToInt q)) },
          some (textContent "Setting updated"), none)) := by
  refine ⟨setSetting_bool, setSetting_str, setSetting_int, setSetting_float,
    setSetting_unsupported, jsonToGo_ne_int, ?_⟩
  intro c st args key q hst hkey hne hval
  unfold toolSetSetting
  rw [hval, hkey]
  rw [if_neg (by simp [hne])]
  have hiota : (match some (Json.num q) with
      | none => GoValue.nil
      | some j => jsonToGo j) = GoValue.float q := rfl
  rw [hiota, setSetting_float c st key q hst]

/-- C10 witness: with a settings store present, setting the JSON number 3/2
through the RPC tool stores the int 1 (truncation toward zero, so the
non-integral 3/2 is not representable in the store); -3/2 truncates to -1;
and an unsupported null value is rejected with the store unchanged. -/
theorem claim_C10_set_setting_types_witness :
    (let c0 : AppContext := { newAppContext with settings := some { bools := [], ints := [], strs := [] } }
     toolSetSetting c0 [("key", Json.str "webDevPort"), ("value", Json.num ((3 : Rat) / 2))] =
      ({ c0 with settings := some (SettingsStore.setInt { bools := [], ints := [], strs := [] } "webDevPort" (truncToInt ((3 : Rat) / 2))) },
        some (textContent "Setting updated"), none)) ∧
    truncToInt ((3 : Rat) / 2) = 1 ∧
    truncToInt (-(3 : Rat) / 2) = -1 ∧
    (let c0 : AppContext := { newAppContext with settings := some { bools := [], ints := [], strs := [] } }
     c0.setSetting "k" GoValue.nil = (c0, some "unsupported setting type")) := by
  refine ⟨?_, by norm_num [truncToInt], by norm_num [truncToInt], ?_⟩
  · exact claim_C10_set_setting_types.2.2.2.2.2.2 _ _
      [("key", Json.str "webDevPort"), ("value", Json.num ((3 : Rat) / 2))]
      "webDevPort" ((3 : Rat) / 2) rfl rfl (by decide) rfl
  · exact claim_C10_set_setting_types.2.2.2.2.1 _ _ "k" GoValue.nil rfl (Or.inl rfl)

end LazyCap
